import Mathlib

/-!
Shallow embedding of the `udta` container box (`src/mp4box/udta.rs`) of the
mp4-rust crate: a generic MP4 nested-box container that reads a sequence of
length-prefixed, four-character-tagged child boxes, dispatches the one
recognized kind (`meta`) to its own decoder, captures unrecognized kinds as
opaque byte blobs, and re-serializes from structured state.

Streams are embedded as a byte list plus a cursor position; machine
integers are `Nat` with explicit wrap-around (`% 2 ^ 64`) where Rust's
`u64` arithmetic can underflow.  Fallible operations return `Except`.
The `meta` sub-box decoder (`MetaBox`, not part of the `udta` source) is
out of scope per the spec and is embedded as the spec's capability
interface: a record of `box_size` / `write_box` / `read_box` operations.
-/

/-- Error kinds of the crate's `Result`: I/O failure (short read, seek
failure) and structural violation carrying a message, mirroring
`Error::InvalidData(&'static str)`. -/
inductive Error where
  | IoError : Error
  | InvalidData : String → Error
deriving DecidableEq, Repr

/-- Fixed size of a box header: 4-byte size field plus 4-byte type tag
(`HEADER_SIZE` in the crate). -/
def HEADER_SIZE : Nat := 8

/-- Big-endian 4-byte encoding of a `u32` value, as emitted for the header's
size and type fields (`(v as u32).to_be_bytes()`); values are reduced
mod `2 ^ 32` as the Rust cast does. -/
def u32be (n : Nat) : List Nat :=
  [n / 2 ^ 24 % 256, n / 2 ^ 16 % 256, n / 2 ^ 8 % 256, n % 256]

/-- Big-endian reassembly of four bytes into a `u32` value, as done when a
header field is read back. -/
def be32 (b0 b1 b2 b3 : Nat) : Nat :=
  ((b0 * 256 + b1) * 256 + b2) * 256 + b3

/-- Wrapping 64-bit subtraction: the embedding of Rust `u64` subtraction
`a - b` (which underflows below zero), written with an explicit
`% 2 ^ 64`.  For `b ≤ a < 2 ^ 64` it coincides with `a - b`. -/
def u64sub (a b : Nat) : Nat := (a + (2 ^ 64 - b % 2 ^ 64)) % 2 ^ 64

/-- Box type tags are 4-byte codes; `meta` is the one kind this container
recognizes (`BoxType::MetaBox`), fourcc `"meta"`. -/
def BoxType.meta : Nat := 0x6d657461

/-- The container's own tag (`BoxType::UdtaBox`), fourcc `"udta"`. -/
def BoxType.udta : Nat := 0x75647461

/-- A parsed box header `{ name, size }` (`BoxHeader` in the crate); `size`
is the declared size including the 8 header bytes. -/
structure BoxHeader where
  name : Nat
  size : Nat
deriving DecidableEq, Repr

/-- Modelled from the spec: the Header Codec's `read` (the crate's
`BoxHeader::read`, not under `src/`).  Consumes exactly 8 bytes at the
cursor — 4-byte big-endian size then 4-byte tag — returning the header and
the advanced cursor; fails with an I/O error on short read.  (Extended
64-bit size fields are out of the spec's scope.) -/
def BoxHeader.read (data : List Nat) (pos : Nat) : Except Error (BoxHeader × Nat) :=
  match data.drop pos with
  | b0 :: b1 :: b2 :: b3 :: b4 :: b5 :: b6 :: b7 :: _ =>
      .ok (⟨be32 b4 b5 b6 b7, be32 b0 b1 b2 b3⟩, pos + HEADER_SIZE)
  | _ => .error .IoError

/-- Modelled from the spec: the Header Codec's `write` (the crate's
`BoxHeader::write`, not under `src/`): emits the 4-byte size and 4-byte
tag with no validation. -/
def BoxHeader.write (h : BoxHeader) : List Nat :=
  u32be h.size ++ u32be h.name

/-- Modelled from the spec: `read_exact` on the stream — reads exactly `n`
bytes at the cursor, failing with an I/O error when fewer remain. -/
def read_exact (data : List Nat) (pos n : Nat) : Except Error (List Nat × Nat) :=
  if pos + n ≤ data.length then .ok ((data.drop pos).take n, pos + n)
  else .error .IoError

/-- Modelled from the spec: `box_start` (not under `src/`) — the byte offset
of the container's own header, 8 bytes before the cursor, which stands just
past that header when `read_box` is entered. -/
def box_start (pos : Nat) : Nat := pos - HEADER_SIZE

/-- Modelled from the spec: `skip_bytes_to` (not under `src/`) —
unconditionally repositions the stream cursor to the given absolute
offset. -/
def skip_bytes_to (target : Nat) : Nat := target

/-- An opaque child captured from an unrecognized tag
(`UserDefinedBox { name, size, data }`).  The crate stores the tag's
string rendering; tag codes and their renderings are in bijection, so the
code itself is stored here. -/
structure UserDefinedBox where
  name : Nat
  size : Nat
  data : List Nat
deriving DecidableEq, Repr

/-- The container (`UdtaBox`): at most one recognized `meta` sub-box plus
the ordered opaque children.  Parametric in the meta sub-box type `M`,
which the spec treats as an external collaborator. -/
structure UdtaBox (M : Type) where
  meta : Option M
  children : List UserDefinedBox
deriving DecidableEq, Repr

/-- Modelled from the spec: the capability interface of the recognized
sub-box kind (`MetaBox`, not under `src/`) — its reported size, its full
serialization (header included), and its reader, which is handed the
stream past the child's header together with the child's declared size and
returns the decoded value and the new cursor. -/
structure MetaCodec (M : Type) where
  box_size : M → Nat
  write_box : M → List Nat
  read_box : List Nat → Nat → Nat → Except Error (M × Nat)

/-- `UdtaBox::get_size`: 8 for the header, plus the meta sub-box's
`box_size()` when present; opaque children contribute nothing. -/
def UdtaBox.get_size {M : Type} (C : MetaCodec M) (b : UdtaBox M) : Nat :=
  HEADER_SIZE + (match b.meta with
    | some m => C.box_size m
    | none => 0)

/-- `UdtaBox::write_box`: writes a header carrying the computed size and the
`udta` tag, then the meta sub-box's encoding if present, and returns the
computed size; opaque children are never re-emitted.  The pair is
(bytes appended to the writer, returned byte count). -/
def UdtaBox.write_box {M : Type} (C : MetaCodec M) (b : UdtaBox M) : List Nat × Nat :=
  let size := UdtaBox.get_size C b
  (BoxHeader.write ⟨BoxType.udta, size⟩ ++ (match b.meta with
    | some m => C.write_box m
    | none => []), size)

/-- Outcome of one iteration of the scanning loop: normal exit with the
final state (`halt`), an error abort (`fail`), or another iteration from
the new cursor and accumulators (`next`). -/
inductive LoopStep (M : Type) where
  | halt : Option M → List UserDefinedBox → Nat → LoopStep M
  | fail : Error → LoopStep M
  | next : Nat → Option M → List UserDefinedBox → LoopStep M

/-- One iteration of the scanning loop of `UdtaBox::read_box`
(`while current < end`): read the child's header, reject a declared size
above the container's declared size, dispatch `meta` to the sub-box
decoder (its result replacing any earlier slot value) and every other tag
to the opaque capture path (`vec![0; (s - 8) as usize]`, embedded as the
wrapping `u64sub header.size 8`, then `read_exact`). -/
def UdtaBox.readStep {M : Type} (C : MetaCodec M) (data : List Nat) (size endPos pos : Nat)
    (meta : Option M) (children : List UserDefinedBox) : LoopStep M :=
  if pos < endPos then
    match BoxHeader.read data pos with
    | .error e => .fail e
    | .ok (header, pos1) =>
      if size < header.size then
        .fail (.InvalidData "udta box contains a box with a larger size than it")
      else if header.name = BoxType.meta then
        match C.read_box data pos1 header.size with
        | .error e => .fail e
        | .ok (m, pos2) => .next pos2 (some m) children
      else
        match read_exact data pos1 (u64sub header.size 8) with
        | .error e => .fail e
        | .ok (d, pos2) => .next pos2 meta (children ++ [⟨header.name, header.size, d⟩])
  else .halt meta children pos

/-- The scanning loop of `UdtaBox::read_box`, iterating `UdtaBox.readStep`
with explicit fuel: `none` means the fuel ran out before the Rust loop
finished, `some` is the Rust outcome.  Arguments after the fixed ones:
fuel, cursor, meta slot, opaque children accumulated so far; on normal
exit it returns the slot, the children and the final cursor. -/
def UdtaBox.readLoop {M : Type} (C : MetaCodec M) (data : List Nat) (size endPos : Nat) :
    Nat → Nat → Option M → List UserDefinedBox →
    Option (Except Error (Option M × List UserDefinedBox × Nat))
  | 0, pos, meta, children =>
      match UdtaBox.readStep C data size endPos pos meta children with
      | .halt m c p => some (.ok (m, c, p))
      | .fail e => some (.error e)
      | .next _ _ _ => none
  | fuel + 1, pos, meta, children =>
      match UdtaBox.readStep C data size endPos pos meta children with
      | .halt m c p => some (.ok (m, c, p))
      | .fail e => some (.error e)
      | .next pos2 m c => UdtaBox.readLoop C data size endPos fuel pos2 m c

/-- `UdtaBox::read_box`: scans children from the cursor up to
`start + size`, then unconditionally repositions the cursor to
`start + size` (`skip_bytes_to`) and returns the populated container.
Fuel `size + 1` is enough for every terminating run of the Rust loop in
which the meta decoder never moves the cursor backwards (proved below);
`none` stands for a run the Rust code would not finish within that
budget. -/
def UdtaBox.read_box {M : Type} (C : MetaCodec M) (data : List Nat) (pos size : Nat) :
    Option (Except Error (UdtaBox M × Nat)) :=
  match UdtaBox.readLoop C data size (box_start pos + size) (size + 1) pos none [] with
  | none => none
  | some (.error e) => some (.error e)
  | some (.ok (meta, children, _)) =>
      some (.ok (⟨meta, children⟩, skip_bytes_to (box_start pos + size)))

/-- The write-then-read cycle of the crate's `udta` unit tests: serialize
the container, parse the produced header (`BoxHeader::read`), then hand
the remainder to `UdtaBox::read_box` with the header's declared size. -/
def writeThenRead {M : Type} (C : MetaCodec M) (b : UdtaBox M) :
    Option (Except Error (UdtaBox M)) :=
  match BoxHeader.read (UdtaBox.write_box C b).1 0 with
  | .error e => some (.error e)
  | .ok (header, pos) =>
    match UdtaBox.read_box C (UdtaBox.write_box C b).1 pos header.size with
    | none => none
    | some (.error e) => some (.error e)
    | some (.ok (dst, _)) => some (.ok dst)

/-- A minimal concrete instance of the meta capability interface, used to
exercise the generic theorems on closed inputs: a meta box whose encoding
is a bare 8-byte header and whose reader consumes the declared body. -/
def TrivMeta : MetaCodec Unit where
  box_size _ := HEADER_SIZE
  write_box _ := u32be HEADER_SIZE ++ u32be BoxType.meta
  read_box _ pos size := .ok ((), pos + (size - HEADER_SIZE))

/-! Basic lemmas about the codec primitives. -/

/-- Decoding the four bytes emitted for a value below `2 ^ 32` recovers the
value. -/
theorem be32_u32be (n : Nat) (h : n < 2 ^ 32) :
    be32 (n / 2 ^ 24 % 256) (n / 2 ^ 16 % 256) (n / 2 ^ 8 % 256) (n % 256) = n := by
  simp only [be32]
  omega

/-- Reading a header at the start of an 8-byte size/tag encoding recovers
the encoded fields and advances the cursor by 8. -/
theorem BoxHeader.read_at (pre rest : List Nat) (s t : Nat)
    (hs : s < 2 ^ 32) (ht : t < 2 ^ 32) :
    BoxHeader.read (pre ++ (u32be s ++ (u32be t ++ rest))) pre.length =
      .ok (⟨t, s⟩, pre.length + 8) := by
  unfold BoxHeader.read
  rw [List.drop_left]
  simp only [u32be, List.cons_append, List.nil_append]
  rw [be32_u32be s hs, be32_u32be t ht]
  rfl

/-- Reading exactly the length of a payload that sits at the cursor yields
that payload and advances the cursor past it. -/
theorem read_exact_at (pre payload rest : List Nat) :
    read_exact (pre ++ (payload ++ rest)) pre.length payload.length =
      .ok (payload, pre.length + payload.length) := by
  unfold read_exact
  rw [if_pos]
  · rw [List.drop_left, List.take_left]
  · simp [List.length_append]

/-- A successful header read always leaves the cursor 8 bytes further. -/
theorem BoxHeader.read_pos {data : List Nat} {pos : Nat} {hdr : BoxHeader} {p1 : Nat}
    (h : BoxHeader.read data pos = .ok (hdr, p1)) : p1 = pos + 8 := by
  unfold BoxHeader.read at h
  split at h
  · simp only [Except.ok.injEq, Prod.mk.injEq, HEADER_SIZE] at h
    exact h.2.symm
  · cases h

/-- A successful exact read advances the cursor by the requested length. -/
theorem read_exact_pos {data : List Nat} {pos n : Nat} {d : List Nat} {p2 : Nat}
    (h : read_exact data pos n = .ok (d, p2)) : p2 = pos + n := by
  unfold read_exact at h
  split at h
  · simp only [Except.ok.injEq, Prod.mk.injEq] at h
    exact h.2.symm
  · cases h

/-- For operands in `u64` range with no underflow, the wrapping subtraction
agrees with truncated subtraction. -/
theorem u64sub_of_le {a b : Nat} (hb : b ≤ a) (ha : a < 2 ^ 64) (hb64 : b < 2 ^ 64) :
    u64sub a b = a - b := by
  unfold u64sub
  omega

/-! Lemmas characterizing one iteration of the scanning loop. -/

/-- With the cursor at or beyond the container's end the loop halts with
the accumulated state. -/
theorem readStep_halt {M : Type} (C : MetaCodec M) (data : List Nat)
    (size endPos pos : Nat) (meta : Option M) (children : List UserDefinedBox)
    (h : endPos ≤ pos) :
    UdtaBox.readStep C data size endPos pos meta children = .halt meta children pos := by
  unfold UdtaBox.readStep
  rw [if_neg (Nat.not_lt.mpr h)]

/-- A halting iteration makes the loop return the final state, whatever the
remaining fuel. -/
theorem readLoop_halt {M : Type} {C : MetaCodec M} {data : List Nat}
    {size endPos pos : Nat} {meta m : Option M} {children c : List UserDefinedBox}
    {p : Nat} (fuel : Nat)
    (h : UdtaBox.readStep C data size endPos pos meta children = .halt m c p) :
    UdtaBox.readLoop C data size endPos fuel pos meta children = some (.ok (m, c, p)) := by
  cases fuel <;> rw [UdtaBox.readLoop, h]

/-- A failing iteration makes the loop return the error, whatever the
remaining fuel. -/
theorem readLoop_fail {M : Type} {C : MetaCodec M} {data : List Nat}
    {size endPos pos : Nat} {meta : Option M} {children : List UserDefinedBox}
    {e : Error} (fuel : Nat)
    (h : UdtaBox.readStep C data size endPos pos meta children = .fail e) :
    UdtaBox.readLoop C data size endPos fuel pos meta children = some (.error e) := by
  cases fuel <;> rw [UdtaBox.readLoop, h]

/-- A continuing iteration consumes one unit of fuel and proceeds from the
new state. -/
theorem readLoop_next {M : Type} {C : MetaCodec M} {data : List Nat}
    {size endPos pos : Nat} {meta m : Option M} {children c : List UserDefinedBox}
    {p2 : Nat} (fuel : Nat)
    (h : UdtaBox.readStep C data size endPos pos meta children = .next p2 m c) :
    UdtaBox.readLoop C data size endPos (fuel + 1) pos meta children =
      UdtaBox.readLoop C data size endPos fuel p2 m c := by
  rw [UdtaBox.readLoop, h]

/-- A failing header read aborts the iteration with that error. -/
theorem readStep_hdr_fail {M : Type} (C : MetaCodec M) {data : List Nat}
    {size endPos pos : Nat} (meta : Option M) (children : List UserDefinedBox)
    {e : Error} (hlt : pos < endPos) (hhdr : BoxHeader.read data pos = .error e) :
    UdtaBox.readStep C data size endPos pos meta children = .fail e := by
  unfold UdtaBox.readStep
  rw [if_pos hlt, hhdr]

/-- A child whose declared size exceeds the container's declared size
aborts the iteration with the structural-violation error, whatever its
tag. -/
theorem readStep_oversize {M : Type} (C : MetaCodec M) {data : List Nat}
    {size endPos pos : Nat} (meta : Option M) (children : List UserDefinedBox)
    {t s pos1 : Nat} (hlt : pos < endPos)
    (hhdr : BoxHeader.read data pos = .ok (⟨t, s⟩, pos1)) (hs : size < s) :
    UdtaBox.readStep C data size endPos pos meta children =
      .fail (.InvalidData "udta box contains a box with a larger size than it") := by
  unfold UdtaBox.readStep
  rw [if_pos hlt, hhdr]
  exact if_pos hs

/-- A `meta` child within bounds is decoded by the sub-box codec and its
value put in the slot, replacing whatever was there. -/
theorem readStep_meta {M : Type} (C : MetaCodec M) {data : List Nat}
    {size endPos pos : Nat} (meta : Option M) (children : List UserDefinedBox)
    {s pos1 pos2 : Nat} {m : M} (hlt : pos < endPos)
    (hhdr : BoxHeader.read data pos = .ok (⟨BoxType.meta, s⟩, pos1))
    (hs : s ≤ size) (hread : C.read_box data pos1 s = .ok (m, pos2)) :
    UdtaBox.readStep C data size endPos pos meta children = .next pos2 (some m) children := by
  unfold UdtaBox.readStep
  rw [if_pos hlt, hhdr]
  exact (if_neg (Nat.not_lt.mpr hs)).trans ((if_pos rfl).trans (by rw [hread]))

/-- A `meta` child whose decoder fails aborts the iteration with exactly
that error. -/
theorem readStep_meta_fail {M : Type} (C : MetaCodec M) {data : List Nat}
    {size endPos pos : Nat} (meta : Option M) (children : List UserDefinedBox)
    {s pos1 : Nat} {e : Error} (hlt : pos < endPos)
    (hhdr : BoxHeader.read data pos = .ok (⟨BoxType.meta, s⟩, pos1))
    (hs : s ≤ size) (hread : C.read_box data pos1 s = .error e) :
    UdtaBox.readStep C data size endPos pos meta children = .fail e := by
  unfold UdtaBox.readStep
  rw [if_pos hlt, hhdr]
  exact (if_neg (Nat.not_lt.mpr hs)).trans ((if_pos rfl).trans (by rw [hread]))

/-- An unrecognized child within bounds is captured verbatim as an opaque
entry appended to the children list. -/
theorem readStep_unknown {M : Type} (C : MetaCodec M) {data : List Nat}
    {size endPos pos : Nat} (meta : Option M) (children : List UserDefinedBox)
    {t s pos1 pos2 : Nat} {d : List Nat} (hlt : pos < endPos)
    (hhdr : BoxHeader.read data pos = .ok (⟨t, s⟩, pos1))
    (hs : s ≤ size) (ht : ¬ t = BoxType.meta)
    (hre : read_exact data pos1 (u64sub s 8) = .ok (d, pos2)) :
    UdtaBox.readStep C data size endPos pos meta children =
      .next pos2 meta (children ++ [⟨t, s, d⟩]) := by
  unfold UdtaBox.readStep
  rw [if_pos hlt, hhdr]
  exact (if_neg (Nat.not_lt.mpr hs)).trans ((if_neg ht).trans (by rw [hre]))

/-- An unrecognized child whose payload read fails aborts the iteration
with that I/O error. -/
theorem readStep_unknown_fail {M : Type} (C : MetaCodec M) {data : List Nat}
    {size endPos pos : Nat} (meta : Option M) (children : List UserDefinedBox)
    {t s pos1 : Nat} {e : Error} (hlt : pos < endPos)
    (hhdr : BoxHeader.read data pos = .ok (⟨t, s⟩, pos1))
    (hs : s ≤ size) (ht : ¬ t = BoxType.meta)
    (hre : read_exact data pos1 (u64sub s 8) = .error e) :
    UdtaBox.readStep C data size endPos pos meta children = .fail e := by
  unfold UdtaBox.readStep
  rw [if_pos hlt, hhdr]
  exact (if_neg (Nat.not_lt.mpr hs)).trans ((if_neg ht).trans (by rw [hre]))

/-- When the scanning loop finishes normally, `read_box` succeeds with the
accumulated container and the cursor forced to `start + size`. -/
theorem read_box_of_loop_ok {M : Type} {C : MetaCodec M} {data : List Nat}
    {pos size : Nat} {m : Option M} {c : List UserDefinedBox} {p : Nat}
    (h : UdtaBox.readLoop C data size (box_start pos + size) (size + 1) pos none [] =
      some (.ok (m, c, p))) :
    UdtaBox.read_box C data pos size = some (.ok (⟨m, c⟩, box_start pos + size)) := by
  unfold UdtaBox.read_box
  rw [h]
  rfl

/-- When the scanning loop aborts with an error, `read_box` returns exactly
that error. -/
theorem read_box_of_loop_err {M : Type} {C : MetaCodec M} {data : List Nat}
    {pos size : Nat} {e : Error}
    (h : UdtaBox.readLoop C data size (box_start pos + size) (size + 1) pos none [] =
      some (.error e)) :
    UdtaBox.read_box C data pos size = some (.error e) := by
  unfold UdtaBox.read_box
  rw [h]

/-- C1: For every container, the computed/emitted size equals 8 plus the
known sub-box's `box_size()` when the `meta` slot is present and exactly 8
when it is absent; opaque children never contribute to this size; and
`write_box` returns a byte count equal to this computed size (with the
emitted bytes matching that count whenever the sub-box encoder emits as
many bytes as its `box_size()` reports, the sub-box codec being external
to this container). -/
theorem C1_container_size {M : Type} (C : MetaCodec M) (b : UdtaBox M) :
    (∀ m, b.meta = some m → UdtaBox.get_size C b = 8 + C.box_size m) ∧
    (b.meta = none → UdtaBox.get_size C b = 8) ∧
    (∀ ch, UdtaBox.get_size C ⟨b.meta, ch⟩ = UdtaBox.get_size C b) ∧
    (UdtaBox.write_box C b).2 = UdtaBox.get_size C b ∧
    ((∀ m, (C.write_box m).length = C.box_size m) →
      (UdtaBox.write_box C b).1.length = (UdtaBox.write_box C b).2) := by
  obtain ⟨meta, children⟩ := b
  refine ⟨?_, ?_, ?_, ?_, ?_⟩
  · intro m hm
    simp only at hm
    simp [UdtaBox.get_size, hm, HEADER_SIZE]
  · intro hm
    simp only at hm
    simp [UdtaBox.get_size, hm, HEADER_SIZE]
  · intro ch
    simp [UdtaBox.get_size]
  · cases meta <;> simp [UdtaBox.write_box]
  · intro hlen
    cases meta
    · simp [UdtaBox.write_box, BoxHeader.write, u32be, UdtaBox.get_size, HEADER_SIZE]
    · simp [UdtaBox.write_box, BoxHeader.write, u32be, UdtaBox.get_size, HEADER_SIZE, hlen]
      omega

/-- C1 witness: the size and byte-count identities evaluated on a container
holding the trivial meta sub-box and one opaque child. -/
theorem C1_container_size_witness :
    UdtaBox.get_size TrivMeta ⟨some (), [⟨1, 9, [0]⟩]⟩ = 8 + TrivMeta.box_size () ∧
    UdtaBox.get_size TrivMeta ⟨none, [⟨1, 9, [0]⟩]⟩ = 8 ∧
    (UdtaBox.write_box TrivMeta ⟨some (), [⟨1, 9, [0]⟩]⟩).1.length =
      (UdtaBox.write_box TrivMeta ⟨some (), [⟨1, 9, [0]⟩]⟩).2 :=
  ⟨(C1_container_size TrivMeta ⟨some (), [⟨1, 9, [0]⟩]⟩).1 () rfl,
   (C1_container_size TrivMeta ⟨none, [⟨1, 9, [0]⟩]⟩).2.1 rfl,
   (C1_container_size TrivMeta ⟨some (), [⟨1, 9, [0]⟩]⟩).2.2.2.2 (fun _ => rfl)⟩

/-- C4: After every successful `read_box`, the stream cursor sits exactly at
container start plus container declared size — `skip_bytes_to` forces this
whatever the children consumed, including runs in which the declared child
sizes did not sum to the container's declared size. -/
theorem C4_cursor_final {M : Type} (C : MetaCodec M) (data : List Nat) (pos size : Nat)
    (b : UdtaBox M) (p : Nat)
    (h : UdtaBox.read_box C data pos size = some (.ok (b, p))) :
    p = box_start pos + size := by
  unfold UdtaBox.read_box at h
  split at h
  · exact Option.noConfusion h
  · exact Except.noConfusion (Option.some.inj h)
  · have h2 := Except.ok.inj (Option.some.inj h)
    injection h2 with h3 h4
    exact h4.symm

/-- An unrecognized fourcc tag (`"abcd"`), used by concrete examples. -/
def unkTag : Nat := 0x61626364

/-- A container whose single opaque child declares a size overrunning the
container's own declared region (24), so the children's declared sizes do
not land the cursor on the boundary; trailing bytes follow. -/
def overBuf : List Nat :=
  BoxHeader.write ⟨BoxType.udta, 24⟩ ++
    (u32be 24 ++ (u32be unkTag ++ (List.replicate 16 7 ++ [9, 9, 9, 9])))

/-- C4 witness: reading `overBuf` succeeds with the final cursor forced
back to `start + declared size` even though the child consumed past it. -/
theorem C4_cursor_final_witness : (24 : Nat) = box_start 8 + 24 :=
  C4_cursor_final TrivMeta overBuf 8 24
    ⟨none, [⟨unkTag, 24, List.replicate 16 7⟩]⟩ 24 (by rfl)

/-- C3: Whenever a child header declares a size exceeding the container's
total declared size, the read fails with the structural-violation
`InvalidData` error — at any point of the scan (first conjunct, over every
loop state) and end-to-end (second conjunct); and the bound really is the
container's total declared size rather than the bytes remaining: the third
conjunct reads a child whose size fits the total but overruns the
remaining region and gets no error at all. -/
theorem C3_oversized_child {M : Type} (C : MetaCodec M) :
    (∀ (data : List Nat) (size endPos fuel pos pos1 t s : Nat) (meta : Option M)
      (children : List UserDefinedBox),
      pos < endPos → BoxHeader.read data pos = .ok (⟨t, s⟩, pos1) → size < s →
      UdtaBox.readLoop C data size endPos fuel pos meta children =
        some (.error (.InvalidData "udta box contains a box with a larger size than it"))) ∧
    (∀ (pre rest : List Nat) (size t s : Nat),
      pre.length = 8 → s < 2 ^ 32 → t < 2 ^ 32 → size < s → 8 < size →
      UdtaBox.read_box C (pre ++ (u32be s ++ (u32be t ++ rest))) 8 size =
        some (.error (.InvalidData "udta box contains a box with a larger size than it"))) ∧
    UdtaBox.read_box TrivMeta overBuf 8 24 =
      some (.ok (⟨none, [⟨unkTag, 24, List.replicate 16 7⟩]⟩, 24)) := by
  refine ⟨?_, ?_, rfl⟩
  · intro data size endPos fuel pos pos1 t s meta children hlt hhdr hs
    exact readLoop_fail fuel (readStep_oversize C meta children hlt hhdr hs)
  · intro pre rest size t s hpre hs32 ht32 hs h8
    have hhdr : BoxHeader.read (pre ++ (u32be s ++ (u32be t ++ rest))) 8 = .ok (⟨t, s⟩, 16) := by
      have := BoxHeader.read_at pre rest s t hs32 ht32
      rw [hpre] at this
      exact this
    have hlt : 8 < box_start 8 + size := by
      have hb : box_start 8 = 0 := rfl
      omega
    exact read_box_of_loop_err
      (readLoop_fail (size + 1) (readStep_oversize C none [] hlt hhdr hs))

/-- A container declaring total size 27 whose first child declares size
100. -/
def oversizeBuf : List Nat :=
  BoxHeader.write ⟨BoxType.udta, 27⟩ ++ (u32be 100 ++ (u32be unkTag ++ [1, 2, 3]))

/-- C3 witness: the oversized-child rejection evaluated on `oversizeBuf`. -/
theorem C3_oversized_child_witness :
    UdtaBox.read_box TrivMeta oversizeBuf 8 27 =
      some (.error (.InvalidData "udta box contains a box with a larger size than it")) :=
  (C3_oversized_child TrivMeta).2.1 (BoxHeader.write ⟨BoxType.udta, 27⟩) [1, 2, 3] 27 unkTag 100
    rfl (by decide) (by decide) (by decide) (by decide)

/-- Fuel-flexible form of `readLoop_next`: any positive fuel admits one
continuing iteration. -/
theorem readLoop_next_of_pos {M : Type} {C : MetaCodec M} {data : List Nat}
    {size endPos pos : Nat} {meta m : Option M} {children c : List UserDefinedBox}
    {p2 : Nat} (fuel : Nat) (hf : 1 ≤ fuel)
    (h : UdtaBox.readStep C data size endPos pos meta children = .next p2 m c) :
    UdtaBox.readLoop C data size endPos fuel pos meta children =
      UdtaBox.readLoop C data size endPos (fuel - 1) p2 m c := by
  obtain ⟨k, rfl⟩ : ∃ k, fuel = k + 1 := ⟨fuel - 1, by omega⟩
  simpa using readLoop_next k h

/-- Two continuing iterations followed by a normal exit: the run of the
scanning loop on a container holding exactly two children. -/
theorem readLoop_two_children {M : Type} {C : MetaCodec M} {data : List Nat}
    {size endPos p1 p2 p3 : Nat} {m1 m2 : Option M}
    {c1 c2 : List UserDefinedBox}
    (step1 : UdtaBox.readStep C data size endPos p1 none [] = .next p2 m1 c1)
    (step2 : UdtaBox.readStep C data size endPos p2 m1 c1 = .next p3 m2 c2)
    (hend : endPos ≤ p3) (hs : 1 ≤ size) :
    UdtaBox.readLoop C data size endPos (size + 1) p1 none [] =
      some (.ok (m2, c2, p3)) := by
  rw [readLoop_next_of_pos (size + 1) (by omega) step1,
      readLoop_next_of_pos (size + 1 - 1) (by omega) step2]
  exact readLoop_halt _ (readStep_halt C data size endPos p3 m2 c2 hend)

/-- One continuing iteration followed by a normal exit: the run of the
scanning loop on a container holding exactly one child. -/
theorem readLoop_one_child {M : Type} {C : MetaCodec M} {data : List Nat}
    {size endPos p1 p2 : Nat} {m1 : Option M} {c1 : List UserDefinedBox}
    (step1 : UdtaBox.readStep C data size endPos p1 none [] = .next p2 m1 c1)
    (hend : endPos ≤ p2) :
    UdtaBox.readLoop C data size endPos (size + 1) p1 none [] =
      some (.ok (m1, c1, p2)) := by
  rw [readLoop_next_of_pos (size + 1) (by omega) step1]
  exact readLoop_halt _ (readStep_halt C data size endPos p2 m1 c1 hend)

/-- C2: Reading a container holding one recognized `meta` sub-box followed
by one box with an unrecognized tag and an N-byte payload yields exactly
one opaque entry carrying that tag, declared size N + 8, and payload bytes
identical to the input, with no error from the unrecognized tag; and
re-serializing that container reports a size that excludes the opaque
entry entirely (8 plus the known sub-box size only). -/
theorem C2_unknown_capture {M : Type} (C : MetaCodec M) (pre body payload : List Nat)
    (sM t N : Nat) (m : M)
    (hpre : pre.length = 8)
    (hsM : sM = 8 + body.length)
    (hs32 : sM < 2 ^ 32)
    (hN : N = payload.length)
    (hN32 : N + 8 < 2 ^ 32)
    (ht32 : t < 2 ^ 32)
    (ht : ¬ t = BoxType.meta)
    (hread : C.read_box
      (pre ++ (u32be sM ++ (u32be BoxType.meta ++ (body ++ (u32be (N + 8) ++ (u32be t ++ payload))))))
      16 sM = .ok (m, 8 + sM)) :
    UdtaBox.read_box C
      (pre ++ (u32be sM ++ (u32be BoxType.meta ++ (body ++ (u32be (N + 8) ++ (u32be t ++ payload))))))
      8 (16 + sM + N) =
      some (.ok (⟨some m, [⟨t, N + 8, payload⟩]⟩, box_start 8 + (16 + sM + N))) ∧
    (UdtaBox.write_box C ⟨some m, [⟨t, N + 8, payload⟩]⟩).2 = 8 + C.box_size m := by
  have hb0 : box_start 8 = 0 := rfl
  set D : List Nat :=
    pre ++ (u32be sM ++ (u32be BoxType.meta ++ (body ++ (u32be (N + 8) ++ (u32be t ++ payload)))))
    with hD
  set size : Nat := 16 + sM + N with hsize
  constructor
  · have h1 : BoxHeader.read D 8 = .ok (⟨BoxType.meta, sM⟩, 16) := by
      have := BoxHeader.read_at pre
        (body ++ (u32be (N + 8) ++ (u32be t ++ payload))) sM BoxType.meta hs32 (by decide)
      rw [hpre] at this
      exact this
    have step1 : UdtaBox.readStep C D size (box_start 8 + size) 8 none [] =
        .next (8 + sM) (some m) [] :=
      readStep_meta C none [] (by omega) h1 (by omega) hread
    have hshape2 : D = (((pre ++ u32be sM) ++ u32be BoxType.meta) ++ body) ++
        (u32be (N + 8) ++ (u32be t ++ payload)) := by
      simp [hD, List.append_assoc]
    have hlen2 : ((((pre ++ u32be sM) ++ u32be BoxType.meta) ++ body)).length = 8 + sM := by
      simp [List.length_append, hpre, u32be]
      omega
    have h2 : BoxHeader.read D (8 + sM) = .ok (⟨t, N + 8⟩, (8 + sM) + 8) := by
      have := BoxHeader.read_at (((pre ++ u32be sM) ++ u32be BoxType.meta) ++ body)
        payload (N + 8) t hN32 ht32
      rw [hlen2] at this
      rw [hshape2]
      exact this
    have hsub : u64sub (N + 8) 8 = N := by
      have := u64sub_of_le (a := N + 8) (b := 8) (by omega) (by omega) (by omega)
      omega
    have hshape3 : D = ((((pre ++ u32be sM) ++ u32be BoxType.meta) ++ body) ++
        (u32be (N + 8) ++ u32be t)) ++ (payload ++ []) := by
      simp [hD, List.append_assoc]
    have hlen3 : (((((pre ++ u32be sM) ++ u32be BoxType.meta) ++ body) ++
        (u32be (N + 8) ++ u32be t))).length = 16 + sM := by
      simp [List.length_append, hpre, u32be]
      omega
    have h3 : read_exact D ((8 + sM) + 8) (u64sub (N + 8) 8) = .ok (payload, size) := by
      have base := read_exact_at ((((pre ++ u32be sM) ++ u32be BoxType.meta) ++ body) ++
        (u32be (N + 8) ++ u32be t)) payload []
      rw [hlen3, ← hN] at base
      have e1 : (8 + sM) + 8 = 16 + sM := by omega
      rw [hshape3, e1, hsub, hsize]
      exact base
    have step2 : UdtaBox.readStep C D size (box_start 8 + size) (8 + sM) (some m) [] =
        .next size (some m) ([] ++ [⟨t, N + 8, payload⟩]) :=
      readStep_unknown C (some m) [] (by omega) h2 (by omega) ht h3
    have hloop := readLoop_two_children step1 step2 (by omega) (by omega)
    have := read_box_of_loop_ok hloop
    simpa using this
  · simp [UdtaBox.write_box, UdtaBox.get_size, HEADER_SIZE]

/-- C2 witness: the capture scenario evaluated on a concrete stream — a
`meta` child of size 8 followed by an `"abcd"` child with payload
`[1, 2, 3]`. -/
theorem C2_unknown_capture_witness :
    UdtaBox.read_box TrivMeta
      (BoxHeader.write ⟨BoxType.udta, 27⟩ ++ (u32be 8 ++ (u32be BoxType.meta ++
        ([] ++ (u32be (3 + 8) ++ (u32be unkTag ++ [1, 2, 3]))))))
      8 (16 + 8 + 3) =
      some (.ok (⟨some (), [⟨unkTag, 3 + 8, [1, 2, 3]⟩]⟩, box_start 8 + (16 + 8 + 3))) ∧
    (UdtaBox.write_box TrivMeta ⟨some (), [⟨unkTag, 3 + 8, [1, 2, 3]⟩]⟩).2 =
      8 + TrivMeta.box_size () :=
  C2_unknown_capture TrivMeta (BoxHeader.write ⟨BoxType.udta, 27⟩) [] [1, 2, 3] 8 unkTag 3 ()
    rfl rfl (by decide) rfl (by decide) (by decide) (by decide) rfl

/-- C7: When more than one child carries the recognized `meta` tag, the
decode of the last occurrence is stored in the known slot, replacing any
earlier value, and no duplicate-box error exists: the first conjunct shows
an in-bounds `meta` child always overwrites an arbitrary prior slot value,
the second runs a two-`meta` container end to end and obtains the second
decode. -/
theorem C7_last_meta_wins {M : Type} (C : MetaCodec M) :
    (∀ (data : List Nat) (size endPos pos pos1 pos2 s : Nat) (meta0 : Option M)
      (children : List UserDefinedBox) (m : M),
      pos < endPos → BoxHeader.read data pos = .ok (⟨BoxType.meta, s⟩, pos1) → s ≤ size →
      C.read_box data pos1 s = .ok (m, pos2) →
      UdtaBox.readStep C data size endPos pos meta0 children = .next pos2 (some m) children) ∧
    (∀ (pre body1 body2 : List Nat) (s1 s2 : Nat) (m1 m2 : M),
      pre.length = 8 → s1 = 8 + body1.length → s2 = 8 + body2.length →
      s1 < 2 ^ 32 → s2 < 2 ^ 32 →
      C.read_box (pre ++ (u32be s1 ++ (u32be BoxType.meta ++
        (body1 ++ (u32be s2 ++ (u32be BoxType.meta ++ body2)))))) 16 s1 = .ok (m1, 8 + s1) →
      C.read_box (pre ++ (u32be s1 ++ (u32be BoxType.meta ++
        (body1 ++ (u32be s2 ++ (u32be BoxType.meta ++ body2)))))) (16 + s1) s2 =
        .ok (m2, 8 + s1 + s2) →
      UdtaBox.read_box C (pre ++ (u32be s1 ++ (u32be BoxType.meta ++
        (body1 ++ (u32be s2 ++ (u32be BoxType.meta ++ body2)))))) 8 (8 + s1 + s2) =
        some (.ok (⟨some m2, []⟩, box_start 8 + (8 + s1 + s2)))) := by
  have hb0 : box_start 8 = 0 := rfl
  constructor
  · intro data size endPos pos pos1 pos2 s meta0 children m hlt hhdr hs hread
    exact readStep_meta C meta0 children hlt hhdr hs hread
  · intro pre body1 body2 s1 s2 m1 m2 hpre hs1 hs2 h132 h232 hread1 hread2
    set D : List Nat := pre ++ (u32be s1 ++ (u32be BoxType.meta ++
      (body1 ++ (u32be s2 ++ (u32be BoxType.meta ++ body2))))) with hD
    set size : Nat := 8 + s1 + s2 with hsize
    have h1 : BoxHeader.read D 8 = .ok (⟨BoxType.meta, s1⟩, 16) := by
      have := BoxHeader.read_at pre
        (body1 ++ (u32be s2 ++ (u32be BoxType.meta ++ body2))) s1 BoxType.meta h132 (by decide)
      rw [hpre] at this
      exact this
    have step1 : UdtaBox.readStep C D size (box_start 8 + size) 8 none [] =
        .next (8 + s1) (some m1) [] :=
      readStep_meta C none [] (by omega) h1 (by omega) hread1
    have hshape2 : D = (((pre ++ u32be s1) ++ u32be BoxType.meta) ++ body1) ++
        (u32be s2 ++ (u32be BoxType.meta ++ body2)) := by
      simp [hD, List.append_assoc]
    have hlen2 : ((((pre ++ u32be s1) ++ u32be BoxType.meta) ++ body1)).length = 8 + s1 := by
      simp [List.length_append, hpre, u32be]
      omega
    have h2 : BoxHeader.read D (8 + s1) = .ok (⟨BoxType.meta, s2⟩, (8 + s1) + 8) := by
      have := BoxHeader.read_at (((pre ++ u32be s1) ++ u32be BoxType.meta) ++ body1)
        body2 s2 BoxType.meta h232 (by decide)
      rw [hlen2] at this
      rw [hshape2]
      exact this
    have hread2' : C.read_box D ((8 + s1) + 8) s2 = .ok (m2, 8 + s1 + s2) := by
      have e : (8 + s1) + 8 = 16 + s1 := by omega
      rw [e]
      exact hread2
    have step2 : UdtaBox.readStep C D size (box_start 8 + size) (8 + s1) (some m1) [] =
        .next (8 + s1 + s2) (some m2) [] :=
      readStep_meta C (some m1) [] (by omega) h2 (by omega) hread2'
    have hloop := readLoop_two_children step1 step2 (by omega) (by omega)
    exact read_box_of_loop_ok hloop

/-- A container holding two consecutive `meta` children of size 8 each. -/
def twoMetaBuf : List Nat :=
  BoxHeader.write ⟨BoxType.udta, 24⟩ ++ (u32be 8 ++ (u32be BoxType.meta ++
    ([] ++ (u32be 8 ++ (u32be BoxType.meta ++ [])))))

/-- C7 witness: the two-`meta` container evaluated with the trivial codec;
the slot holds the (second) decoded value and no error is raised. -/
theorem C7_last_meta_wins_witness :
    UdtaBox.read_box TrivMeta twoMetaBuf 8 (8 + 8 + 8) =
      some (.ok (⟨some (), []⟩, box_start 8 + (8 + 8 + 8))) :=
  (C7_last_meta_wins TrivMeta).2 (BoxHeader.write ⟨BoxType.udta, 24⟩) [] [] 8 8 () ()
    rfl rfl rfl (by decide) (by decide) rfl rfl

/-- A header read with fewer than 8 bytes left fails with an I/O error. -/
theorem BoxHeader.read_short {data : List Nat} {pos : Nat} (h : data.length < pos + 8) :
    BoxHeader.read data pos = .error .IoError := by
  have hlen : (data.drop pos).length < 8 := by
    rw [List.length_drop]
    omega
  unfold BoxHeader.read
  rcases hd : data.drop pos with _ |
    ⟨b0, _ | ⟨b1, _ | ⟨b2, _ | ⟨b3, _ | ⟨b4, _ | ⟨b5, _ | ⟨b6, _ | ⟨b7, tl⟩⟩⟩⟩⟩⟩⟩⟩
  all_goals rw [hd] at hlen
  all_goals first
    | rfl
    | (simp only [List.length_cons] at hlen; omega)

/-- An exact read requesting more bytes than remain fails with an I/O
error. -/
theorem read_exact_short {data : List Nat} {pos n : Nat} (h : data.length < pos + n) :
    read_exact data pos n = .error .IoError := by
  unfold read_exact
  rw [if_neg (by omega)]

/-- C8: Every failing read returns only the error and never a partially
populated container: an error from the recursive `meta` decoder propagates
unchanged (first conjunct), a short header read and a short opaque-payload
read surface the I/O error (second and third), and a call that returns an
error returns no container value (fourth). -/
theorem C8_error_propagation {M : Type} (C : MetaCodec M) :
    (∀ (pre rest : List Nat) (s size : Nat) (e : Error),
      pre.length = 8 → s < 2 ^ 32 → s ≤ size → 8 < size →
      C.read_box (pre ++ (u32be s ++ (u32be BoxType.meta ++ rest))) 16 s = .error e →
      UdtaBox.read_box C (pre ++ (u32be s ++ (u32be BoxType.meta ++ rest))) 8 size =
        some (.error e)) ∧
    (∀ (data : List Nat) (size : Nat), 8 < size → data.length < 16 →
      UdtaBox.read_box C data 8 size = some (.error .IoError)) ∧
    (∀ (pre rest : List Nat) (t s size : Nat),
      pre.length = 8 → s < 2 ^ 32 → t < 2 ^ 32 → ¬ t = BoxType.meta →
      8 ≤ s → s ≤ size → 8 < size →
      (pre ++ (u32be s ++ (u32be t ++ rest))).length < 16 + (s - 8) →
      UdtaBox.read_box C (pre ++ (u32be s ++ (u32be t ++ rest))) 8 size =
        some (.error .IoError)) ∧
    (∀ (data : List Nat) (pos size : Nat) (e : Error),
      UdtaBox.read_box C data pos size = some (.error e) →
      ∀ (b : UdtaBox M) (p : Nat), ¬ UdtaBox.read_box C data pos size = some (.ok (b, p))) := by
  have hb0 : box_start 8 = 0 := rfl
  refine ⟨?_, ?_, ?_, ?_⟩
  · intro pre rest s size e hpre hs32 hs hsz hread
    have h1 : BoxHeader.read (pre ++ (u32be s ++ (u32be BoxType.meta ++ rest))) 8 =
        .ok (⟨BoxType.meta, s⟩, 16) := by
      have := BoxHeader.read_at pre rest s BoxType.meta hs32 (by decide)
      rw [hpre] at this
      exact this
    exact read_box_of_loop_err (readLoop_fail (size + 1)
      (readStep_meta_fail C none [] (by omega) h1 hs hread))
  · intro data size hsz hlen
    exact read_box_of_loop_err (readLoop_fail (size + 1)
      (readStep_hdr_fail C none [] (by omega) (BoxHeader.read_short (by omega))))
  · intro pre rest t s size hpre hs32 ht32 ht h8s hs hsz hshort
    have h1 : BoxHeader.read (pre ++ (u32be s ++ (u32be t ++ rest))) 8 =
        .ok (⟨t, s⟩, 16) := by
      have := BoxHeader.read_at pre rest s t hs32 ht32
      rw [hpre] at this
      exact this
    have hsub : u64sub s 8 = s - 8 := u64sub_of_le h8s (by omega) (by omega)
    have hre : read_exact (pre ++ (u32be s ++ (u32be t ++ rest))) 16 (u64sub s 8) =
        .error .IoError := by
      rw [hsub]
      exact read_exact_short (by omega)
    exact read_box_of_loop_err (readLoop_fail (size + 1)
      (readStep_unknown_fail C none [] (by omega) h1 hs ht hre))
  · intro data pos size e he b p hok
    rw [he] at hok
    exact Except.noConfusion (Option.some.inj hok)

/-- A meta codec whose reader always fails, exercising error
propagation. -/
def FailMeta : MetaCodec Unit where
  box_size _ := HEADER_SIZE
  write_box _ := u32be HEADER_SIZE ++ u32be BoxType.meta
  read_box _ _ _ := .error (.InvalidData "meta fail")

/-- C8 witness: the four abort scenarios evaluated on concrete streams. -/
theorem C8_error_propagation_witness :
    UdtaBox.read_box FailMeta
      (BoxHeader.write ⟨BoxType.udta, 16⟩ ++ (u32be 8 ++ (u32be BoxType.meta ++ []))) 8 16 =
      some (.error (.InvalidData "meta fail")) ∧
    UdtaBox.read_box TrivMeta (BoxHeader.write ⟨BoxType.udta, 20⟩ ++ [1, 2, 3]) 8 20 =
      some (.error .IoError) ∧
    UdtaBox.read_box TrivMeta
      (BoxHeader.write ⟨BoxType.udta, 20⟩ ++ (u32be 12 ++ (u32be unkTag ++ [1]))) 8 20 =
      some (.error .IoError) ∧
    ¬ UdtaBox.read_box TrivMeta (BoxHeader.write ⟨BoxType.udta, 20⟩ ++ [1, 2, 3]) 8 20 =
      some (.ok (⟨none, []⟩, 0)) :=
  ⟨(C8_error_propagation FailMeta).1 (BoxHeader.write ⟨BoxType.udta, 16⟩) [] 8 16
      (.InvalidData "meta fail") rfl (by decide) (by decide) (by decide) rfl,
   (C8_error_propagation TrivMeta).2.1 (BoxHeader.write ⟨BoxType.udta, 20⟩ ++ [1, 2, 3]) 20
      (by decide) (by decide),
   (C8_error_propagation TrivMeta).2.2.1 (BoxHeader.write ⟨BoxType.udta, 20⟩) [1] unkTag 12 20
      rfl (by decide) (by decide) (by decide) (by decide) (by decide) (by decide) (by decide),
   (C8_error_propagation TrivMeta).2.2.2 (BoxHeader.write ⟨BoxType.udta, 20⟩ ++ [1, 2, 3]) 8 20
      .IoError
      ((C8_error_propagation TrivMeta).2.1 (BoxHeader.write ⟨BoxType.udta, 20⟩ ++ [1, 2, 3]) 20
        (by decide) (by decide))
      ⟨none, []⟩ 0⟩

/-- A container whose first child declares size 1: below the 8 header
bytes, yet within the container's declared size, so the only existing
bound check passes. -/
def underflowBuf : List Nat :=
  BoxHeader.write ⟨BoxType.udta, 27⟩ ++ (u32be 1 ++ (u32be unkTag ++ [1, 2, 3]))

/-- C9: `read_box` has no guard that a child's declared size `s` is at
least 8.  Under the precondition `8 ≤ s ≤ container size` the opaque-path
payload-length computation `s - 8` (embedded as the wrapping
`u64sub s 8`) never underflows (first conjunct); absent that precondition
the subtraction wraps to an astronomical length (second conjunct), and a
child declaring size 1 — which passes the only bound check — drives the
read into that unguarded subtraction, whose impossible payload request
surfaces as an I/O error (third conjunct). -/
theorem C9_unguarded_subtraction :
    (∀ s size : Nat, 8 ≤ s → s ≤ size → size < 2 ^ 64 → u64sub s 8 = s - 8) ∧
    (∀ s : Nat, s < 8 → 2 ^ 63 < u64sub s 8) ∧
    UdtaBox.read_box TrivMeta underflowBuf 8 27 = some (.error .IoError) := by
  refine ⟨?_, ?_, rfl⟩
  · intro s size h8 hs hsz
    exact u64sub_of_le h8 (by omega) (by omega)
  · intro s hs
    unfold u64sub
    omega

/-- C9 witness: the guarded identity at `s = 20` and the wrap at
`s = 1`. -/
theorem C9_unguarded_subtraction_witness :
    u64sub 20 8 = 20 - 8 ∧ 2 ^ 63 < u64sub 1 8 :=
  ⟨C9_unguarded_subtraction.1 20 20 (by decide) (by decide) (by norm_num),
   C9_unguarded_subtraction.2.1 1 (by decide)⟩

/-- Cursor monotonicity inversion for a continuing iteration. -/
theorem readStep_next_pos {M : Type} {C : MetaCodec M} {data : List Nat}
    {size endPos pos : Nat} {meta m : Option M} {children c : List UserDefinedBox} {p2 : Nat}
    (Hmono : ∀ (p s : Nat) (m' : M) (p' : Nat), C.read_box data p s = .ok (m', p') → p ≤ p')
    (h : UdtaBox.readStep C data size endPos pos meta children = .next p2 m c) :
    pos + 8 ≤ p2 := by
  unfold UdtaBox.readStep at h
  split at h
  · split at h
    · exact LoopStep.noConfusion h
    · rename_i header pos1 heq
      split at h
      · exact LoopStep.noConfusion h
      · split at h
        · split at h
          · exact LoopStep.noConfusion h
          · rename_i m' p' heq2
            injection h with h1 h2 h3
            have hp1 := BoxHeader.read_pos heq
            have hp2 := Hmono pos1 header.size m' p' heq2
            omega
        · split at h
          · exact LoopStep.noConfusion h
          · rename_i d p' heq3
            injection h with h1 h2 h3
            have hp1 := BoxHeader.read_pos heq
            have hp2 := read_exact_pos heq3
            omega
  · exact LoopStep.noConfusion h

/-- With a cursor-monotone sub-box decoder, fuel covering the container
region by 8-byte steps is enough: the loop never runs out. -/
theorem readLoop_total {M : Type} (C : MetaCodec M) (data : List Nat) (size endPos : Nat)
    (Hmono : ∀ (p s : Nat) (m' : M) (p' : Nat), C.read_box data p s = .ok (m', p') → p ≤ p') :
    ∀ (fuel pos : Nat) (meta : Option M) (children : List UserDefinedBox),
      endPos ≤ pos + 8 * fuel →
      ¬ UdtaBox.readLoop C data size endPos fuel pos meta children = none := by
  intro fuel
  induction fuel with
  | zero =>
    intro pos meta children hb
    rw [readLoop_halt 0 (readStep_halt C data size endPos pos meta children (by omega))]
    simp
  | succ fuel ih =>
    intro pos meta children hb
    cases hstep : UdtaBox.readStep C data size endPos pos meta children with
    | halt m c p =>
      rw [readLoop_halt (fuel + 1) hstep]
      simp
    | fail e =>
      rw [readLoop_fail (fuel + 1) hstep]
      simp
    | next p2 m c =>
      rw [readLoop_next fuel hstep]
      have hp := readStep_next_pos Hmono hstep
      exact ih p2 m c (by omega)

/-- C10: Whenever the sub-box decoder never moves the cursor backwards,
the scanning loop terminates: each iteration consumes at least the 8-byte
header, so fuel `size + 1` always suffices and `read_box` never exhausts
it, whatever the input bytes (failing runs abort, succeeding runs reach
`end`). -/
theorem C10_termination {M : Type} (C : MetaCodec M) (data : List Nat) (pos size : Nat)
    (Hmono : ∀ (p s : Nat) (m' : M) (p' : Nat), C.read_box data p s = .ok (m', p') → p ≤ p') :
    ¬ UdtaBox.read_box C data pos size = none := by
  intro hnone
  unfold UdtaBox.read_box at hnone
  split at hnone
  · rename_i heq
    have hb : box_start pos = pos - 8 := rfl
    exact readLoop_total C data size (box_start pos + size) Hmono (size + 1) pos none []
      (by omega) heq
  · exact Option.noConfusion hnone
  · exact Option.noConfusion hnone

/-- C10 witness: termination observed on the two-`meta` container with the
trivial codec. -/
theorem C10_termination_witness : ¬ UdtaBox.read_box TrivMeta twoMetaBuf 8 24 = none :=
  C10_termination TrivMeta twoMetaBuf 8 24
    (fun p s m' p' h => by
      injection h with h1
      injection h1 with h2 h3
      omega)

/-- Composition lemma for the test cycle: a successful header parse
followed by a successful `read_box` yields the parsed container. -/
theorem writeThenRead_eq {M : Type} {C : MetaCodec M} {b y : UdtaBox M} {hdr : BoxHeader}
    {p res : Nat}
    (h0 : BoxHeader.read (UdtaBox.write_box C b).1 0 = .ok (hdr, p))
    (h1 : UdtaBox.read_box C (UdtaBox.write_box C b).1 p hdr.size = some (.ok (y, res))) :
    writeThenRead C b = some (.ok y) := by
  unfold writeThenRead
  rw [h0]
  show (match UdtaBox.read_box C (UdtaBox.write_box C b).1 p hdr.size with
    | none => (none : Option (Except Error (UdtaBox M)))
    | some (Except.error e) => some (Except.error e)
    | some (Except.ok (dst, _)) => some (Except.ok dst)) = some (.ok y)
  rw [h1]

/-- Writing a container with an empty `meta` slot and reading the result
yields the empty container, whatever opaque children were held: the writer
drops them and emits a bare 8-byte box. -/
theorem writeThenRead_empty {M : Type} (C : MetaCodec M) (ch : List UserDefinedBox) :
    writeThenRead C ⟨none, ch⟩ = some (.ok ⟨none, []⟩) := by
  have hb0 : box_start 8 = 0 := rfl
  have hbuf : (UdtaBox.write_box C ⟨none, ch⟩).1 =
      u32be 8 ++ (u32be BoxType.udta ++ []) := by
    simp [UdtaBox.write_box, UdtaBox.get_size, BoxHeader.write, HEADER_SIZE]
  have h0 : BoxHeader.read (UdtaBox.write_box C ⟨none, ch⟩).1 0 =
      .ok (⟨BoxType.udta, 8⟩, 8) := by
    rw [hbuf]
    have := BoxHeader.read_at [] [] 8 BoxType.udta (by decide) (by decide)
    simpa using this
  have h1 : UdtaBox.read_box C (UdtaBox.write_box C ⟨none, ch⟩).1 8 8 =
      some (.ok (⟨none, []⟩, box_start 8 + 8)) :=
    read_box_of_loop_ok (readLoop_halt _
      (readStep_halt C _ 8 (box_start 8 + 8) 8 none [] (by omega)))
  exact writeThenRead_eq h0 h1

/-- Writing a container whose `meta` slot holds `m` and reading the result
yields the container holding the decode `dm` of `m`'s encoding and no
opaque children, for any sub-box codec that reports its encoding's length,
frames it with a well-formed header, and decodes it consuming exactly its
body. -/
theorem writeThenRead_meta {M : Type} (C : MetaCodec M) (m dm : M) (body : List Nat)
    (ch : List UserDefinedBox)
    (hw : C.write_box m = u32be (C.box_size m) ++ (u32be BoxType.meta ++ body))
    (hlen : (C.write_box m).length = C.box_size m)
    (hlt : 8 + C.box_size m < 2 ^ 32)
    (hread : ∀ hdr8 : List Nat, hdr8.length = 8 →
      C.read_box (hdr8 ++ C.write_box m) 16 (C.box_size m) = .ok (dm, 8 + C.box_size m)) :
    writeThenRead C ⟨some m, ch⟩ = some (.ok ⟨some dm, []⟩) := by
  have hb0 : box_start 8 = 0 := rfl
  have hbs : C.box_size m = 8 + body.length := by
    rw [hw] at hlen
    simp [List.length_append, u32be] at hlen
    omega
  have hbuf : (UdtaBox.write_box C ⟨some m, ch⟩).1 =
      u32be (8 + C.box_size m) ++ (u32be BoxType.udta ++ C.write_box m) := by
    simp [UdtaBox.write_box, UdtaBox.get_size, BoxHeader.write, HEADER_SIZE,
      List.append_assoc]
  have h0 : BoxHeader.read (UdtaBox.write_box C ⟨some m, ch⟩).1 0 =
      .ok (⟨BoxType.udta, 8 + C.box_size m⟩, 8) := by
    rw [hbuf]
    have := BoxHeader.read_at [] (C.write_box m) (8 + C.box_size m) BoxType.udta hlt (by decide)
    simpa using this
  have hshape : u32be (8 + C.box_size m) ++ (u32be BoxType.udta ++ C.write_box m) =
      (u32be (8 + C.box_size m) ++ u32be BoxType.udta) ++
        (u32be (C.box_size m) ++ (u32be BoxType.meta ++ body)) := by
    rw [hw]
    simp [List.append_assoc]
  have hlen8 : ((u32be (8 + C.box_size m) ++ u32be BoxType.udta)).length = 8 := by
    simp [u32be]
  have hhdr : BoxHeader.read
      (u32be (8 + C.box_size m) ++ (u32be BoxType.udta ++ C.write_box m)) 8 =
      .ok (⟨BoxType.meta, C.box_size m⟩, 16) := by
    have := BoxHeader.read_at (u32be (8 + C.box_size m) ++ u32be BoxType.udta)
      body (C.box_size m) BoxType.meta (by omega) (by decide)
    rw [hlen8] at this
    rw [hshape]
    simpa using this
  have hread' : C.read_box
      (u32be (8 + C.box_size m) ++ (u32be BoxType.udta ++ C.write_box m)) 16
      (C.box_size m) = .ok (dm, 8 + C.box_size m) := by
    have hsh2 : u32be (8 + C.box_size m) ++ (u32be BoxType.udta ++ C.write_box m) =
        (u32be (8 + C.box_size m) ++ u32be BoxType.udta) ++ C.write_box m := by
      simp [List.append_assoc]
    rw [hsh2]
    exact hread _ hlen8
  have step1 : UdtaBox.readStep C
      (u32be (8 + C.box_size m) ++ (u32be BoxType.udta ++ C.write_box m))
      (8 + C.box_size m) (box_start 8 + (8 + C.box_size m)) 8 none [] =
      .next (8 + C.box_size m) (some dm) [] :=
    readStep_meta C none [] (by omega) hhdr (by omega) hread'
  have hloop := readLoop_one_child step1 (by omega)
  have h1 : UdtaBox.read_box C (UdtaBox.write_box C ⟨some m, ch⟩).1 8 (8 + C.box_size m) =
      some (.ok (⟨some dm, []⟩, box_start 8 + (8 + C.box_size m))) := by
    rw [hbuf]
    exact read_box_of_loop_ok hloop
  exact writeThenRead_eq h0 h1

/-- C6: For the empty container and for a container holding a (default)
known sub-box that the codec round-trips to itself, write-then-read yields
a structurally equal container, and the bytes written equal the reported
size — 8 for the empty container, 8 plus the sub-box size otherwise. -/
theorem C6_roundtrip_basic {M : Type} (C : MetaCodec M) :
    (writeThenRead C ⟨none, []⟩ = some (.ok ⟨none, []⟩) ∧
      (UdtaBox.write_box C ⟨none, []⟩).1.length = (UdtaBox.write_box C ⟨none, []⟩).2 ∧
      (UdtaBox.write_box C ⟨none, []⟩).2 = 8) ∧
    (∀ (m : M) (body : List Nat),
      C.write_box m = u32be (C.box_size m) ++ (u32be BoxType.meta ++ body) →
      (C.write_box m).length = C.box_size m →
      8 + C.box_size m < 2 ^ 32 →
      (∀ hdr8 : List Nat, hdr8.length = 8 →
        C.read_box (hdr8 ++ C.write_box m) 16 (C.box_size m) = .ok (m, 8 + C.box_size m)) →
      writeThenRead C ⟨some m, []⟩ = some (.ok ⟨some m, []⟩) ∧
      (UdtaBox.write_box C ⟨some m, []⟩).1.length = (UdtaBox.write_box C ⟨some m, []⟩).2 ∧
      (UdtaBox.write_box C ⟨some m, []⟩).2 = 8 + C.box_size m) := by
  constructor
  · refine ⟨writeThenRead_empty C [], ?_, ?_⟩
    · simp [UdtaBox.write_box, UdtaBox.get_size, BoxHeader.write, u32be, HEADER_SIZE]
    · simp [UdtaBox.write_box, UdtaBox.get_size, HEADER_SIZE]
  · intro m body hw hlen hlt hread
    refine ⟨writeThenRead_meta C m m body [] hw hlen hlt hread, ?_, ?_⟩
    · simp [UdtaBox.write_box, UdtaBox.get_size, BoxHeader.write, u32be, HEADER_SIZE, hlen]
      omega
    · simp [UdtaBox.write_box, UdtaBox.get_size, HEADER_SIZE]

/-- C6 witness: both round trips evaluated with the trivial codec. -/
theorem C6_roundtrip_basic_witness :
    writeThenRead TrivMeta ⟨none, []⟩ = some (.ok ⟨none, []⟩) ∧
    writeThenRead TrivMeta ⟨some (), []⟩ = some (.ok ⟨some (), []⟩) ∧
    (UdtaBox.write_box TrivMeta ⟨some (), []⟩).2 = 8 + TrivMeta.box_size () :=
  ⟨(C6_roundtrip_basic TrivMeta).1.1,
   ((C6_roundtrip_basic TrivMeta).2 () [] rfl rfl (by decide) (fun _ _ => rfl)).1,
   ((C6_roundtrip_basic TrivMeta).2 () [] rfl rfl (by decide) (fun _ _ => rfl)).2.2⟩

/-- C5: One write-then-read pass reaches a fixed point of the lossy round
trip: for every container, the cycle succeeds with some container `y`, and
running the cycle on `y` returns `y` itself — given a sub-box codec whose
decode of an encoding re-encodes to the same bytes. -/
theorem C5_idempotence {M : Type} (C : MetaCodec M)
    (H1 : ∀ m, (C.write_box m).length = C.box_size m)
    (H2 : ∀ m, ∃ body, C.write_box m = u32be (C.box_size m) ++ (u32be BoxType.meta ++ body))
    (H3 : ∀ m, 8 + C.box_size m < 2 ^ 32)
    (H4 : ∀ m, ∃ dm, (∀ hdr8 : List Nat, hdr8.length = 8 →
        C.read_box (hdr8 ++ C.write_box m) 16 (C.box_size m) = .ok (dm, 8 + C.box_size m)) ∧
      C.write_box dm = C.write_box m) :
    ∀ b : UdtaBox M, ∃ y : UdtaBox M,
      writeThenRead C b = some (.ok y) ∧ writeThenRead C y = some (.ok y) := by
  intro b
  obtain ⟨meta, ch⟩ := b
  cases meta with
  | none => exact ⟨⟨none, []⟩, writeThenRead_empty C ch, writeThenRead_empty C []⟩
  | some m =>
    obtain ⟨body, hw⟩ := H2 m
    obtain ⟨dm, hr, hwd⟩ := H4 m
    refine ⟨⟨some dm, []⟩, writeThenRead_meta C m dm body ch hw (H1 m) (H3 m) hr, ?_⟩
    have hbseq : C.box_size dm = C.box_size m := by
      rw [← H1 dm, ← H1 m, hwd]
    obtain ⟨body2, hw2⟩ := H2 dm
    have hr2 : ∀ hdr8 : List Nat, hdr8.length = 8 →
        C.read_box (hdr8 ++ C.write_box dm) 16 (C.box_size dm) =
          .ok (dm, 8 + C.box_size dm) := by
      intro hdr8 h8
      rw [hwd, hbseq]
      exact hr hdr8 h8
    exact writeThenRead_meta C dm dm body2 [] hw2 (H1 dm) (H3 dm) hr2

/-- C5 witness: the fixed point reached from a container holding the
trivial meta sub-box and one opaque child. -/
theorem C5_idempotence_witness :
    ∃ y : UdtaBox Unit,
      writeThenRead TrivMeta ⟨some (), [⟨unkTag, 9, [5]⟩]⟩ = some (.ok y) ∧
      writeThenRead TrivMeta y = some (.ok y) :=
  C5_idempotence TrivMeta (fun _ => rfl) (fun _ => ⟨[], rfl⟩)
    (fun _ => (by decide : (8 : Nat) + HEADER_SIZE < 2 ^ 32))
    (fun _ => ⟨(), fun _ _ => rfl, rfl⟩) ⟨some (), [⟨unkTag, 9, [5]⟩]⟩
